import Mathlib

/-!
Verification of the 2p-2runner quest-file utilities.

The Python source operates on `str` values through `find`, slicing, `replace`
and substring membership.  We embed text as `List Char` and give each Python
primitive an executable Lean counterpart with Python's exact semantics
(`find` returns `-1` on failure, slices clamp and accept negative indices).
-/

namespace TwoRunner

/-- `leadsWith pat s` is true when `pat` is an initial segment of `s`. -/
def leadsWith : List Char → List Char → Bool
  | [], _ => true
  | _ :: _, [] => false
  | p :: ps, c :: cs => p = c && leadsWith ps cs

/-- Python `s.find(pat)`: index of the first occurrence of `pat` in `s`, else `-1`. -/
def pyFind : List Char → List Char → Int
  | [], pat => if pat = [] then 0 else -1
  | c :: t, pat =>
    if leadsWith pat (c :: t) then 0
    else if pyFind t pat = -1 then -1 else pyFind t pat + 1

/-- Clamp a Python index `i` against a string of length `len` (negative indices
count from the end, out-of-range indices are clamped). -/
def pyIdx (len : Nat) (i : Int) : Nat :=
  if i < 0 then ((len : Int) + i).toNat else min i.toNat len

/-- Python slice `s[a:b]`. -/
def pySlice (s : List Char) (a b : Int) : List Char :=
  (s.take (pyIdx s.length b)).drop (pyIdx s.length a)

/-- Python `s.find(pat, start)`. -/
def pyFindFrom (s pat : List Char) (start : Int) : Int :=
  let st := pyIdx s.length start
  let r := pyFind (s.drop st) pat
  if r = -1 then -1 else r + st

/-- Python `sub in s` for strings: substring containment. -/
def pyInStr (sub s : List Char) : Bool :=
  pyFind s sub ≠ -1

/-- Structural worker for `pyReplace`: the extra `Nat` argument bounds the
number of steps; each step consumes at least one character of the remaining
string, so a bound equal to the string's length never runs out. -/
def pyReplaceFuel (old new : List Char) : Nat → List Char → List Char
  | _, [] => []
  | 0, c :: t => c :: t
  | fuel + 1, c :: t =>
    if leadsWith old (c :: t) ∧ old ≠ [] then
      new ++ pyReplaceFuel old new fuel (t.drop (old.length - 1))
    else c :: pyReplaceFuel old new fuel t

/-- Python `s.replace(old, new)` (all non-overlapping occurrences, left to right);
`old` is nonempty at every call site of the source. -/
def pyReplace (old new s : List Char) : List Char :=
  pyReplaceFuel old new s.length s

/-! ## html_slice (source lines 319–335) -/

/-- The literal heading searched by `html_slice` (43 characters). -/
def hSliceHeading : List Char := "<h2 class=\"heading-size-3\">Description</h2>".toList

/-- The next-heading marker searched by `html_slice`. -/
def hTwoMark : List Char := "<h2".toList

/-- One iteration of the stripping loop body:
`test2 = test2[0:test2.find('<')] + test2[test2.find('>') + 1:len(test2)]`. -/
def stripStep (t : List Char) : List Char :=
  pySlice t 0 (pyFind t ['<']) ++ pySlice t (pyFind t ['>'] + 1) (t.length : Int)

/-- The `while test2.find('<') > 0` loop of `html_slice`, with an explicit fuel
bound; `none` means the loop is still running after `fuel` iterations. -/
def stripLoop : Nat → List Char → Option (List Char)
  | 0, t => if 0 < pyFind t ['<'] then none else some t
  | fuel + 1, t => if 0 < pyFind t ['<'] then stripLoop fuel (stripStep t) else some t

/-- `html_slice(content)` for a `str` argument.  `none` means the stripping loop
ran longer than `fuel` iterations; `some none` is Python's `None` return;
`some (some s)` is a normal return of `s`. -/
def html_slice (fuel : Nat) (content : List Char) : Option (Option (List Char)) :=
  let i := pyFind content hSliceHeading
  if i = -1 then some none
  else
    let test := pySlice content (i + 43) (content.length : Int)
    let j := pyFind test hTwoMark
    let test2 := pySlice test 0 j
    (stripLoop fuel test2).map some

/-! ## markdown_slice (source lines 346–378) -/

def mdDesc : List Char := "## Description".toList
def mdMark : List Char := "##".toList
def mdProgLink : List Char := "## [Progress](javascript:)".toList
def mdProg : List Char := "## Progress".toList
def mdCompLink : List Char := "## [Completion](javascript:)".toList
def mdComp : List Char := "## Completion".toList

/-- `markdown_slice(content)` for a `str` argument; `none` is Python's `None`. -/
def markdown_slice (content : List Char) : Option (List Char) :=
  let i := pyFind content mdDesc
  let ii := pyFindFrom content mdMark (i + 1)
  if i = -1 then none
  else
    let sliced1 := pySlice content (i + 14) ii
    let content1 := pyReplace mdProgLink mdProg content
    let j := pyFind content1 mdProg
    let jj := pyFindFrom content1 mdMark (j + 1)
    let sliced2 := if j = -1 then sliced1 else sliced1 ++ pySlice content1 (j + 11) jj
    let content2 := pyReplace mdCompLink mdComp content1
    let k := pyFind content2 mdComp
    let kk := pyFindFrom content2 mdMark (k + 1)
    if k = -1 then some sliced2 else some (sliced2 ++ pySlice content2 (k + 13) kk)

/-! ## Batch model (source lines 165–316, 381–406)

A directory entry is a filename together with the outcome of `import_text`:
`none` models a read that raises (caught inside `import_text`, which then
returns Python `None`), `some c` a successful read of contents `c`.
Outputs are modelled as the list of `(filename, text)` pairs written by
`export_text`. -/

structure PyFile where
  name : List Char
  content : Option (List Char)
  deriving DecidableEq

/-- The reserved hidden macOS artifact filename. -/
def dsName : List Char := ".DS_Store".toList

/-- `html_slice(content)` when `content` may be Python `None`: `None.find`
raises `AttributeError`, which the function's `try/except` turns into `None`. -/
def html_slice_py (fuel : Nat) : Option (List Char) → Option (Option (List Char))
  | none => some none
  | some c => html_slice fuel c

/-- `markdown_slice(content)` when `content` may be Python `None` (the
`try/except` around the first `find` turns the `AttributeError` into `None`). -/
def markdown_slice_py : Option (List Char) → Option (List Char)
  | none => none
  | some c => markdown_slice c

/-- `html_to_markdown(content)`: the external `html2text` converter is opaque,
modelled by a parameter `convert`; `none` covers both a `None` argument and an
`AttributeError` raised on malformed input (both yield a `None` return). -/
def html_to_markdown_py (convert : List Char → Option (List Char)) :
    Option (List Char) → Option (List Char)
  | none => none
  | some c => convert c

/-- `conversion_process(conversion_tool, file, out_directory)` as observed by the
pool: `none` means the worker never completes normally (`sys.exit` on an unknown
tool, or the `html_slice` loop exceeding `fuel`); `some none` a completion that
writes nothing; `some (some t)` a completion that writes `t` under `file.name`. -/
def conversion_process (convert : List Char → Option (List Char)) (fuel : Nat)
    (tool : List Char) (f : PyFile) : Option (Option (List Char)) :=
  if f.name = dsName then some none
  else if tool = ['1'] then html_slice_py fuel f.content
  else if tool = ['2'] then some (html_to_markdown_py convert f.content)
  else if tool = ['3'] then some (markdown_slice_py f.content)
  else none

/-- The set of `(filename, text)` pairs written by one conversion batch. -/
def conversion_outputs (convert : List Char → Option (List Char)) (fuel : Nat)
    (tool : List Char) (files : List PyFile) : List (List Char × List Char) :=
  files.filterMap fun f =>
    match conversion_process convert fuel tool f with
    | some (some t) => some (f.name, t)
    | _ => none

/-- The final `total_files_processed` counter: `conversion_progress` is the
`apply_async` callback, so it increments once per normally completed task,
regardless of whether the task wrote an output. -/
def conversion_processed_count (convert : List Char → Option (List Char)) (fuel : Nat)
    (tool : List Char) (files : List PyFile) : Nat :=
  (files.filter fun f => (conversion_process convert fuel tool f).isSome).length

/-- `export_long` over a directory: returns the written `(filename, text)` pairs
and whether the run aborted.  A failed read leaves `content = None`, and
`len(None)` raises an uncaught `TypeError`, aborting the remaining iteration. -/
def export_long_run : List PyFile → List (List Char × List Char) × Bool
  | [] => ([], false)
  | f :: rest =>
    if f.name = dsName then export_long_run rest
    else
      match f.content with
      | none => ([], true)
      | some c =>
        if 500 < c.length then
          ((f.name, c) :: (export_long_run rest).1, (export_long_run rest).2)
        else export_long_run rest

/-- The per-file loop of `pick_rand` given the frozen selection `picked`. -/
def pick_rand_run (picked : List PyFile) : List PyFile → List (List Char × List Char)
  | [] => []
  | f :: rest =>
    if f.name = dsName then pick_rand_run picked rest
    else if f ∈ picked then
      match f.content with
      | some c => (f.name, c) :: pick_rand_run picked rest
      | none => pick_rand_run picked rest
    else pick_rand_run picked rest

/-- `pick_rand` in random mode: `random.sample(dir_list, n)` is the external
sampler `sample`; a `ValueError` (modelled as `Except.error`) propagates and
aborts the run before the processing loop starts. -/
def pick_rand_r (sample : List PyFile → Nat → Except Unit (List PyFile))
    (listing : List PyFile) (n : Nat) : Except Unit (List (List Char × List Char)) :=
  match sample listing n with
  | Except.error e => Except.error e
  | Except.ok picked => Except.ok (pick_rand_run picked listing)

/-- The per-file loop of `match_list`: `file.name in quest_list` is Python's
substring containment on the raw list-file text. -/
def match_list_run (questList : List Char) : List PyFile → List (List Char × List Char)
  | [] => []
  | f :: rest =>
    if f.name = dsName then match_list_run questList rest
    else if pyInStr f.name questList then
      match f.content with
      | some c => (f.name, c) :: match_list_run questList rest
      | none => match_list_run questList rest
    else match_list_run questList rest

/-! ## Well-formed markup sections

For the positive part of the tag-stripping claim we describe the inner text of
a section as alternating plain text and complete tags: `Chunk.text` is tag-free
text followed by the complete tag `<Chunk.tag>`, and a trailing tag-free
`trail` closes the section. -/

structure Chunk where
  text : List Char
  tag : List Char
  deriving DecidableEq

/-- The raw characters of a sequence of chunks followed by `trail`. -/
def renderChunks : List Chunk → List Char → List Char
  | [], trail => trail
  | ch :: rest, trail => ch.text ++ '<' :: (ch.tag ++ '>' :: renderChunks rest trail)

/-- The tag-free text of a sequence of chunks followed by `trail`. -/
def chunksText : List Chunk → List Char → List Char
  | [], trail => trail
  | ch :: rest, trail => ch.text ++ chunksText rest trail

/-- A decidable "contains no angle bracket" predicate. -/
def NoAngle (s : List Char) : Prop := '<' ∉ s ∧ '>' ∉ s

instance (s : List Char) : Decidable (NoAngle s) := by
  unfold NoAngle; infer_instance

/-! ## Lemmas about the string primitives -/

theorem leadsWith_nil (pat : List Char) : leadsWith pat [] = true ↔ pat = [] := by
  cases pat <;> simp [leadsWith]

theorem leadsWith_append_self (p s : List Char) : leadsWith p (p ++ s) = true := by
  induction p with
  | nil => simp [leadsWith]
  | cons c t ih => simp [leadsWith, ih]

theorem pyFind_zero {s pat : List Char} (hs : s ≠ []) (h : leadsWith pat s = true) :
    pyFind s pat = 0 := by
  cases s with
  | nil => exact absurd rfl hs
  | cons c t => simp [pyFind, h]

theorem pyFind_single_neg {s : List Char} {c : Char} (h : c ∉ s) : pyFind s [c] = -1 := by
  induction s with
  | nil => rfl
  | cons x t ih =>
    have hxc : ¬(c = x) := fun he => h (he ▸ List.mem_cons_self x t)
    have ht : c ∉ t := fun hm => h (List.mem_cons_of_mem x hm)
    simp [pyFind, leadsWith, hxc, ih ht]

theorem pyFind_single_append {t : List Char} {c : Char} (r : List Char) (h : c ∉ t) :
    pyFind (t ++ c :: r) [c] = (t.length : Int) := by
  induction t with
  | nil => simp [pyFind, leadsWith]
  | cons x t' ih =>
    have hxc : ¬(c = x) := fun he => h (he ▸ List.mem_cons_self x t')
    have ht : c ∉ t' := fun hm => h (List.mem_cons_of_mem x hm)
    have hr := ih ht
    have hne : pyFind (t' ++ c :: r) [c] ≠ -1 := by
      rw [hr]; omega
    simp [pyFind, leadsWith, hxc, hr, hne]

/-- Clamping a nonnegative Python index is `min`. -/
theorem pyIdx_coe (len n : Nat) : pyIdx len (n : Int) = min n len := by
  unfold pyIdx
  have h1 : ¬((n : Int) < 0) := by omega
  simp [h1]

theorem take_min (s : List Char) (n : Nat) : s.take (min n s.length) = s.take n := by
  by_cases hle : n ≤ s.length
  · rw [Nat.min_eq_left hle]
  · have h : s.length ≤ n := by omega
    rw [Nat.min_eq_right h, List.take_length, List.take_of_length_le h]

theorem drop_min (s : List Char) (n : Nat) : s.drop (min n s.length) = s.drop n := by
  by_cases hle : n ≤ s.length
  · rw [Nat.min_eq_left hle]
  · have h : s.length ≤ n := by omega
    rw [Nat.min_eq_right h, List.drop_length, List.drop_of_length_le h]

theorem pySlice_zero_coe (s : List Char) (n : Nat) : pySlice s 0 (n : Int) = s.take n := by
  unfold pySlice
  rw [show (0 : Int) = ((0 : Nat) : Int) from rfl, pyIdx_coe, pyIdx_coe, take_min]
  simp

theorem pyIdx_nonneg (len : Nat) {a : Int} (h : 0 ≤ a) : pyIdx len a = min a.toNat len := by
  unfold pyIdx
  have h1 : ¬(a < 0) := by omega
  simp [h1]

theorem pySlice_to_len (s : List Char) (a : Int) (h : 0 ≤ a) :
    pySlice s a (s.length : Int) = s.drop a.toNat := by
  unfold pySlice
  rw [pyIdx_nonneg _ h, pyIdx_coe]
  simp only [Int.toNat_ofNat, Nat.min_self, List.take_length]
  rw [drop_min]

theorem pySlice_neg_one (s : List Char) (a : Int) (h : 0 ≤ a) :
    pySlice s a (-1) = (s.take (s.length - 1)).drop a.toNat := by
  unfold pySlice
  rw [pyIdx_nonneg _ h]
  unfold pyIdx
  have h0 : ((-1 : Int) < 0) := by omega
  have h2 : ((s.length : Int) + (-1)).toNat = s.length - 1 := by omega
  simp only [if_pos h0, h2]
  by_cases hle : a.toNat ≤ s.length
  · rw [Nat.min_eq_left hle]
  · have hl : s.length ≤ a.toNat := by omega
    have hlen : (s.take (s.length - 1)).length ≤ a.toNat := by
      simp only [List.length_take]; omega
    have hlen' : (s.take (s.length - 1)).length ≤ s.length := by
      simp only [List.length_take]; omega
    rw [Nat.min_eq_right hl, List.drop_of_length_le hlen, List.drop_of_length_le hlen']

theorem pySlice_sandwich (a b c : List Char) :
    pySlice (a ++ b ++ c) (a.length : Int) ((a.length + b.length : Nat) : Int) = b := by
  unfold pySlice
  rw [pyIdx_coe, pyIdx_coe]
  have hL : (a ++ b ++ c).length = a.length + b.length + c.length := by
    rw [List.length_append, List.length_append]
  rw [hL]
  have h1 : min (a.length + b.length) (a.length + b.length + c.length) = a.length + b.length := by
    omega
  have h2 : min a.length (a.length + b.length + c.length) = a.length := by omega
  rw [h1, h2, @List.take_left' Char (a ++ b) c (a.length + b.length) (by simp), List.drop_left]

theorem pySlice_sandwich' (a b c : List Char) (x y : Int) (hx : x = (a.length : Int))
    (hy : y = ((a.length + b.length : Nat) : Int)) : pySlice (a ++ b ++ c) x y = b := by
  rw [hx, hy]
  exact pySlice_sandwich a b c

theorem pyFind_ge_neg_one (s pat : List Char) : -1 ≤ pyFind s pat := by
  induction s with
  | nil =>
    unfold pyFind
    by_cases h : pat = [] <;> simp [h]
  | cons c t ih =>
    unfold pyFind
    by_cases h1 : leadsWith pat (c :: t)
    · rw [if_pos h1]; omega
    · rw [if_neg h1]
      by_cases h2 : pyFind t pat = -1
      · rw [if_pos h2]
      · rw [if_neg h2]; omega

theorem pyFind_cons_pos {c : Char} {t pat : List Char} {m : Int}
    (h : pyFind (c :: t) pat = m) (hm : 0 < m) :
    leadsWith pat (c :: t) = false ∧ pyFind t pat = m - 1 := by
  unfold pyFind at h
  by_cases h1 : leadsWith pat (c :: t)
  · rw [if_pos h1] at h; exfalso; omega
  · rw [if_neg h1] at h
    by_cases h2 : pyFind t pat = -1
    · rw [if_pos h2] at h; exfalso; omega
    · rw [if_neg h2] at h
      refine ⟨?_, by omega⟩
      cases hb : leadsWith pat (c :: t) with
      | false => rfl
      | true => exact absurd hb h1

theorem pyFind_cons_neg {c : Char} {t pat : List Char} (h : pyFind (c :: t) pat = -1) :
    leadsWith pat (c :: t) = false ∧ pyFind t pat = -1 := by
  unfold pyFind at h
  by_cases h1 : leadsWith pat (c :: t)
  · rw [if_pos h1] at h; exact absurd h (by decide)
  · rw [if_neg h1] at h
    refine ⟨?_, ?_⟩
    · cases hb : leadsWith pat (c :: t) with
      | false => rfl
      | true => exact absurd hb h1
    · by_cases h2 : pyFind t pat = -1
      · exact h2
      · rw [if_neg h2] at h
        have := pyFind_ge_neg_one t pat
        exfalso; omega

/-- `replace` leaves a string without any occurrence of `old` unchanged, for
every fuel bound. -/
theorem pyReplaceFuel_no_occ (old new : List Char) :
    ∀ (fuel : Nat) (s : List Char), pyFind s old = -1 →
      pyReplaceFuel old new fuel s = s := by
  intro fuel
  induction fuel with
  | zero =>
    intro s _
    cases s <;> rfl
  | succ f ih =>
    intro s hs
    cases s with
    | nil => rfl
    | cons c t =>
      have hinv := pyFind_cons_neg hs
      show (if leadsWith old (c :: t) ∧ old ≠ [] then
          new ++ pyReplaceFuel old new f (t.drop (old.length - 1))
        else c :: pyReplaceFuel old new f t) = c :: t
      rw [if_neg (by rintro ⟨hl, _⟩; rw [hinv.1] at hl; exact Bool.false_ne_true hl),
        ih t hinv.2]

/-- `replace` on a string with exactly one occurrence of `old`, located at the
end of `a` (first occurrence at index `a.length`, none in `b`). -/
theorem pyReplaceFuel_single (old new b : List Char) (hold : old ≠ [])
    (hb : pyFind b old = -1) :
    ∀ (fuel : Nat) (a : List Char), a.length + 1 ≤ fuel →
      pyFind (a ++ (old ++ b)) old = (a.length : Int) →
      pyReplaceFuel old new fuel (a ++ (old ++ b)) = a ++ (new ++ b) := by
  intro fuel
  induction fuel with
  | zero =>
    intro a hlen _
    exact absurd hlen (by omega)
  | succ f ih =>
    intro a hlen hfind
    cases a with
    | nil =>
      cases old with
      | nil => exact absurd rfl hold
      | cons o os =>
        show pyReplaceFuel (o :: os) new (f + 1) ([] ++ ((o :: os) ++ b)) = [] ++ (new ++ b)
        simp only [List.nil_append, List.cons_append]
        have hlw : leadsWith (o :: os) (o :: (os ++ b)) = true := by
          have h := leadsWith_append_self (o :: os) b
          simpa [List.cons_append] using h
        show (if leadsWith (o :: os) (o :: (os ++ b)) ∧ (o :: os) ≠ [] then
            new ++ pyReplaceFuel (o :: os) new f ((os ++ b).drop ((o :: os).length - 1))
          else o :: pyReplaceFuel (o :: os) new f (os ++ b)) = new ++ b
        rw [if_pos ⟨hlw, by simp⟩]
        have hdrop : (os ++ b).drop ((o :: os).length - 1) = b := by
          simp only [List.length_cons, Nat.add_sub_cancel]
          exact List.drop_left os b
        rw [hdrop, pyReplaceFuel_no_occ (o :: os) new f b hb]
    | cons x a' =>
      rw [List.cons_append] at hfind
      have hinv := pyFind_cons_pos hfind (by simp only [List.length_cons]; omega)
      have hfind' : pyFind (a' ++ (old ++ b)) old = (a'.length : Int) := by
        rw [hinv.2]
        simp only [List.length_cons]
        omega
      show pyReplaceFuel old new (f + 1) ((x :: a') ++ (old ++ b)) = (x :: a') ++ (new ++ b)
      simp only [List.cons_append]
      show (if leadsWith old (x :: (a' ++ (old ++ b))) ∧ old ≠ [] then
          new ++ pyReplaceFuel old new f ((a' ++ (old ++ b)).drop (old.length - 1))
        else x :: pyReplaceFuel old new f (a' ++ (old ++ b))) = x :: (a' ++ (new ++ b))
      rw [if_neg (by rintro ⟨hl, _⟩; rw [hinv.1] at hl; exact Bool.false_ne_true hl),
        ih a' (by simp only [List.length_cons] at hlen; omega) hfind']

theorem pyReplace_single (old new a b : List Char) (hold : old ≠ [])
    (hfind : pyFind (a ++ (old ++ b)) old = (a.length : Int)) (hb : pyFind b old = -1) :
    pyReplace old new (a ++ (old ++ b)) = a ++ (new ++ b) := by
  unfold pyReplace
  refine pyReplaceFuel_single old new b hold hb _ a ?_ hfind
  simp only [List.length_append]
  have h1 : 1 ≤ old.length := by
    cases old with
    | nil => exact absurd rfl hold
    | cons _ _ => simp only [List.length_cons]; omega
  omega

/-! ## The stripping loop on well-formed sections -/

theorem NoAngle_append {a b : List Char} (ha : NoAngle a) (hb : NoAngle b) :
    NoAngle (a ++ b) := by
  unfold NoAngle at *
  simp only [List.mem_append]
  tauto

theorem chunksText_noAngle {chunks : List Chunk} {trail : List Char}
    (hwf : ∀ ch ∈ chunks, NoAngle ch.text) (htrail : NoAngle trail) :
    NoAngle (chunksText chunks trail) := by
  induction chunks with
  | nil => exact htrail
  | cons ch rest ih =>
    have h1 : NoAngle ch.text := hwf ch (List.mem_cons_self ch rest)
    have h2 : ∀ c ∈ rest, NoAngle c.text := fun c hc => hwf c (List.mem_cons_of_mem ch hc)
    exact NoAngle_append h1 (ih h2)

theorem renderChunks_cons (ch : Chunk) (rest : List Chunk) (trail : List Char) :
    renderChunks (ch :: rest) trail =
      (ch.text ++ '<' :: ch.tag) ++ '>' :: renderChunks rest trail := by
  simp [renderChunks, List.append_assoc]

/-- One loop iteration removes exactly the first tag of a well-formed section. -/
theorem stripStep_renderChunks (ch : Chunk) (rest : List Chunk) (trail : List Char)
    (htext : NoAngle ch.text) (htag : NoAngle ch.tag) :
    stripStep (renderChunks (ch :: rest) trail) = ch.text ++ renderChunks rest trail := by
  have hlt : pyFind (renderChunks (ch :: rest) trail) ['<'] = (ch.text.length : Int) := by
    unfold renderChunks
    exact pyFind_single_append _ htext.1
  have hgtmem : '>' ∉ ch.text ++ '<' :: ch.tag := by
    simp only [List.mem_append, List.mem_cons]
    push_neg
    exact ⟨htext.2, by decide, htag.2⟩
  have hgt : pyFind (renderChunks (ch :: rest) trail) ['>'] =
      ((ch.text ++ '<' :: ch.tag).length : Int) := by
    rw [renderChunks_cons]
    exact pyFind_single_append _ hgtmem
  unfold stripStep
  rw [hlt, hgt, pySlice_zero_coe, pySlice_to_len _ _ (by omega)]
  have h1 : renderChunks (ch :: rest) trail = ch.text ++ ('<' :: (ch.tag ++ '>' :: renderChunks rest trail)) := by
    simp [renderChunks]
  have h2 : List.take ch.text.length (renderChunks (ch :: rest) trail) = ch.text := by
    rw [h1, List.take_left]
  have h3 : (((ch.text ++ '<' :: ch.tag).length : Int) + 1).toNat =
      (ch.text ++ '<' :: ch.tag).length + 1 := by omega
  have h4 : renderChunks (ch :: rest) trail =
      ((ch.text ++ '<' :: ch.tag) ++ ['>']) ++ renderChunks rest trail := by
    rw [renderChunks_cons]
    simp [List.append_assoc]
  have hlen5 : ((ch.text ++ '<' :: ch.tag) ++ ['>']).length =
      (ch.text ++ '<' :: ch.tag).length + 1 := by
    simp only [List.length_append, List.length_cons, List.length_nil]
  have h5 : List.drop ((ch.text ++ '<' :: ch.tag).length + 1) (renderChunks (ch :: rest) trail) =
      renderChunks rest trail := by
    rw [h4, List.drop_left' hlen5]
  rw [h3, h2, h5]

/-- The stripping loop on a well-formed section: with enough fuel it terminates
and returns exactly the tag-free text, provided the section does not begin with
a tag. -/
theorem stripLoop_renderChunks :
    ∀ (fuel : Nat) (chunks : List Chunk) (trail : List Char), chunks.length ≤ fuel →
      (∀ ch ∈ chunks, NoAngle ch.text ∧ NoAngle ch.tag) → NoAngle trail →
      (∀ ch ∈ chunks.take 1, ch.text ≠ []) →
      stripLoop fuel (renderChunks chunks trail) = some (chunksText chunks trail) := by
  intro fuel
  induction fuel with
  | zero =>
    intro chunks trail hfuel hwf htrail hhead
    have hnil : chunks = [] := List.length_eq_zero.mp (Nat.le_zero.mp hfuel)
    subst hnil
    have hneg : pyFind (renderChunks [] trail) ['<'] = -1 := by
      unfold renderChunks
      exact pyFind_single_neg htrail.1
    unfold stripLoop
    rw [hneg]
    simp [renderChunks, chunksText]
  | succ f ih =>
    intro chunks trail hfuel hwf htrail hhead
    cases chunks with
    | nil =>
      have hneg : pyFind (renderChunks [] trail) ['<'] = -1 := by
        unfold renderChunks
        exact pyFind_single_neg htrail.1
      unfold stripLoop
      rw [hneg]
      simp [renderChunks, chunksText]
    | cons ch rest =>
      have hch := hwf ch (List.mem_cons_self ch rest)
      have htne : ch.text ≠ [] := hhead ch (by simp)
      have hlt : pyFind (renderChunks (ch :: rest) trail) ['<'] = (ch.text.length : Int) := by
        unfold renderChunks
        exact pyFind_single_append _ hch.1.1
      have hpos : 0 < pyFind (renderChunks (ch :: rest) trail) ['<'] := by
        rw [hlt]
        have : ch.text.length ≠ 0 := fun h => htne (List.length_eq_zero.mp h)
        omega
      have hstep := stripStep_renderChunks ch rest trail hch.1 hch.2
      show (if 0 < pyFind (renderChunks (ch :: rest) trail) ['<'] then
          stripLoop f (stripStep (renderChunks (ch :: rest) trail))
        else some (renderChunks (ch :: rest) trail)) = some (chunksText (ch :: rest) trail)
      rw [if_pos hpos, hstep]
      cases rest with
      | nil =>
        have hall : NoAngle (ch.text ++ trail) := NoAngle_append hch.1 htrail
        have hthis := ih [] (ch.text ++ trail) (by simp) (by simp) hall (by simp)
        simp only [renderChunks] at hthis ⊢
        rw [hthis]
        simp [chunksText]
      | cons ch2 rest2 =>
        have hmerge : ch.text ++ renderChunks (ch2 :: rest2) trail =
            renderChunks ((⟨ch.text ++ ch2.text, ch2.tag⟩) :: rest2) trail := by
          simp [renderChunks, List.append_assoc]
        have hwf' : ∀ c ∈ ((⟨ch.text ++ ch2.text, ch2.tag⟩) : Chunk) :: rest2,
            NoAngle c.text ∧ NoAngle c.tag := by
          intro c hc
          rcases List.mem_cons.mp hc with h | h
          · subst h
            have hch2 := hwf ch2 (by simp)
            exact ⟨NoAngle_append hch.1 hch2.1, hch2.2⟩
          · exact hwf c (by simp [h])
        have hhead' : ∀ c ∈ (((⟨ch.text ++ ch2.text, ch2.tag⟩) : Chunk) :: rest2).take 1,
            c.text ≠ [] := by
          intro c hc
          simp only [List.take_succ_cons, List.take_zero, List.mem_singleton] at hc
          subst hc
          simp only [ne_eq, List.append_eq_nil, not_and]
          intro h
          exact absurd h htne
        have hlen' : (((⟨ch.text ++ ch2.text, ch2.tag⟩) : Chunk) :: rest2).length ≤ f := by
          simp only [List.length_cons] at hfuel ⊢
          omega
        rw [hmerge, ih _ _ hlen' hwf' htrail hhead']
        simp [chunksText, List.append_assoc]

/-! ## Non-termination of the stripping loop on an unterminated tag -/

/-- When the section contains a `<` at positive index and no `>`, each loop
iteration rewrites `test2` to `test2[0:k] + test2` (because `l = -1` makes
`test2[l+1:]` the whole string), so the loop never exits. -/
theorem stripLoop_unterminated :
    ∀ (fuel n : Nat), stripLoop fuel (List.replicate (n + 1) 'a' ++ ['<', 'b']) = none := by
  intro fuel
  induction fuel with
  | zero =>
    intro n
    have hlt : pyFind (List.replicate (n + 1) 'a' ++ ['<', 'b']) ['<'] = ((n + 1 : Nat) : Int) := by
      have : ('<' : Char) ∉ List.replicate (n + 1) 'a' := by
        intro h
        have := (List.mem_replicate.mp h).2
        exact absurd this (by decide)
      have h := @pyFind_single_append (List.replicate (n + 1) 'a') '<' ['b'] this
      simpa [List.length_replicate] using h
    unfold stripLoop
    rw [hlt]
    simp
  | succ f ih =>
    intro n
    have hmemlt : ('<' : Char) ∉ List.replicate (n + 1) 'a' := by
      intro h
      have := (List.mem_replicate.mp h).2
      exact absurd this (by decide)
    have hlt : pyFind (List.replicate (n + 1) 'a' ++ ['<', 'b']) ['<'] = ((n + 1 : Nat) : Int) := by
      have h := @pyFind_single_append (List.replicate (n + 1) 'a') '<' ['b'] hmemlt
      simpa [List.length_replicate] using h
    have hmemgt : ('>' : Char) ∉ List.replicate (n + 1) 'a' ++ ['<', 'b'] := by
      simp only [List.mem_append, List.mem_cons, List.mem_singleton]
      push_neg
      refine ⟨?_, by decide, by decide⟩
      intro h
      have := (List.mem_replicate.mp h).2
      exact absurd this (by decide)
    have hgt : pyFind (List.replicate (n + 1) 'a' ++ ['<', 'b']) ['>'] = -1 :=
      pyFind_single_neg hmemgt
    have hstep : stripStep (List.replicate (n + 1) 'a' ++ ['<', 'b']) =
        List.replicate (2 * n + 1 + 1) 'a' ++ ['<', 'b'] := by
      unfold stripStep
      rw [hlt, hgt, pySlice_zero_coe, pySlice_to_len _ _ (by omega)]
      have h1 : List.take (n + 1) (List.replicate (n + 1) 'a' ++ ['<', 'b']) =
          List.replicate (n + 1) 'a' := by
        rw [List.take_left' (by simp)]
      have h2 : ((-1 : Int) + 1).toNat = 0 := by omega
      rw [h1, h2, List.drop_zero]
      rw [← List.append_assoc, ← List.replicate_add,
        show (n + 1) + (n + 1) = 2 * n + 1 + 1 by omega]
    have hpos : 0 < pyFind (List.replicate (n + 1) 'a' ++ ['<', 'b']) ['<'] := by
      rw [hlt]; omega
    show (if 0 < pyFind (List.replicate (n + 1) 'a' ++ ['<', 'b']) ['<'] then
        stripLoop f (stripStep (List.replicate (n + 1) 'a' ++ ['<', 'b']))
      else some (List.replicate (n + 1) 'a' ++ ['<', 'b'])) = none
    rw [if_pos hpos, hstep]
    exact ih (2 * n + 1)

/-! ## Named intermediate values of markdown_slice -/

/-- `content` after `content.replace('## [Progress](javascript:)', '## Progress')`. -/
def mdContent1 (content : List Char) : List Char := pyReplace mdProgLink mdProg content

/-- `content` after the additional `replace('## [Completion](javascript:)', '## Completion')`. -/
def mdContent2 (content : List Char) : List Char := pyReplace mdCompLink mdComp (mdContent1 content)

/-- The variable `i` of `markdown_slice`. -/
def mdI (content : List Char) : Int := pyFind content mdDesc

/-- The variable `ii` of `markdown_slice`. -/
def mdII (content : List Char) : Int := pyFindFrom content mdMark (mdI content + 1)

/-- The variable `j` of `markdown_slice`. -/
def mdJ (content : List Char) : Int := pyFind (mdContent1 content) mdProg

/-- The variable `jj` of `markdown_slice`. -/
def mdJJ (content : List Char) : Int := pyFindFrom (mdContent1 content) mdMark (mdJ content + 1)

/-- The variable `k` of `markdown_slice`. -/
def mdK (content : List Char) : Int := pyFind (mdContent2 content) mdComp

/-- The variable `kk` of `markdown_slice`. -/
def mdKK (content : List Char) : Int := pyFindFrom (mdContent2 content) mdMark (mdK content + 1)

/-- The Description slice `content[i + 14:ii]`. -/
def mdSliced1 (content : List Char) : List Char :=
  pySlice content (mdI content + 14) (mdII content)

/-- `sliced_text` after the optional Progress slice has been appended. -/
def mdSliced2 (content : List Char) : List Char :=
  if mdJ content = -1 then mdSliced1 content
  else mdSliced1 content ++ pySlice (mdContent1 content) (mdJ content + 11) (mdJJ content)

theorem markdown_slice_eq (content : List Char) :
    markdown_slice content =
      if mdI content = -1 then none
      else if mdK content = -1 then some (mdSliced2 content)
      else some (mdSliced2 content ++
        pySlice (mdContent2 content) (mdK content + 13) (mdKK content)) := rfl

/-! ## Claim C1 -/

/-- A Description section whose inner text `a<b` has an unterminated tag at a
positive index, followed by the next `<h2` heading. -/
def c1Content : List Char := hSliceHeading ++ "a<b<h2".toList

/-- C1: the claim states that on markup with an unterminated tag the stripping
loop of `html_slice` terminates and returns the substring as-is.  The code
violates this: on `c1Content` the loop body rebuilds `test2` as
`test2[0:k] + test2` (since `find('>') = -1` makes `test2[l+1:]` the whole
string), so for every fuel bound the loop is still running — it never
terminates. -/
theorem c1_html_slice_nonterminating : ∀ fuel : Nat, html_slice fuel c1Content = none := by
  intro fuel
  have hne : ¬(pyFind c1Content hSliceHeading = -1) := by decide
  show (if pyFind c1Content hSliceHeading = -1 then some none
    else (stripLoop fuel (pySlice
      (pySlice c1Content (pyFind c1Content hSliceHeading + 43) (c1Content.length : Int)) 0
      (pyFind (pySlice c1Content (pyFind c1Content hSliceHeading + 43) (c1Content.length : Int))
        hTwoMark))).map some) = none
  rw [if_neg hne]
  have ht2 : pySlice
      (pySlice c1Content (pyFind c1Content hSliceHeading + 43) (c1Content.length : Int)) 0
      (pyFind (pySlice c1Content (pyFind c1Content hSliceHeading + 43) (c1Content.length : Int))
        hTwoMark) = List.replicate (0 + 1) 'a' ++ ['<', 'b'] := by decide
  rw [ht2, stripLoop_unterminated fuel 0]
  rfl

/-! ## Claim C3 -/

/-- The concrete markdown document of the claim. -/
def c3Content : List Char :=
  "## Description\nFoo\n## Progress\nBar\n## Completion\nBaz\n## Other".toList

/-- C3 counterexample: on the claim's document, `markdown_slice` does not return
`"Foo" + "Bar" + "Baz"`. -/
theorem c3_counterexample :
    markdown_slice c3Content ≠ some ("Foo".toList ++ "Bar".toList ++ "Baz".toList) := by
  decide

/-- C3 (amended): each slice starts right after the heading text and ends at the
next `##`, so it keeps the surrounding newline characters: the result is
`"\nFoo\n" + "\nBar\n" + "\nBaz\n"`, the three section bodies concatenated in
the fixed order with no inserted separators. -/
theorem c3_amended :
    markdown_slice c3Content =
      some ("\nFoo\n".toList ++ "\nBar\n".toList ++ "\nBaz\n".toList) := by
  decide

/-! ## Claim C6 -/

/-- A Description section followed by a deeper-level heading `### Sub` whose
subsection lies before the next same-level heading `## Next`. -/
def c6Content : List Char := "## Description\nFoo\n### Sub\nBar\n## Next\n".toList

/-- C6 counterexample: the claim states that text under a deeper-level heading
before the next same-level heading is included in the extracted section.  On
`c6Content` the Description slice stops at the `##` occurrence inside `###`,
so the subsection text `Bar` is not part of the result. -/
theorem c6_counterexample :
    markdown_slice c6Content = some "\nFoo\n".toList ∧
      pyInStr "Bar".toList "\nFoo\n".toList = false := by
  constructor
  · decide
  · decide

/-- C6 (amended): for each of the three sections, `markdown_slice` takes exactly
the text strictly between that section's heading — after the linked forms
`## [Progress](javascript:)` and `## [Completion](javascript:)` have been
normalized by `replace` to their plain forms — and the next occurrence of the
two-character marker `##`, which may belong to a heading of any level `≥ 2`,
not only one of the same level (text under a deeper heading is not included).
First conjunct: a document with all three sections, Progress and Completion in
linked form, yields the three bodies concatenated; the `replace`
normalization is derived from the single-occurrence hypotheses.  Second
conjunct: when Progress and Completion are absent the result is the
Description body alone. -/
theorem c6_amended :
    (∀ bodyD bodyP bodyC rest : List Char,
      pyFind (mdDesc ++ bodyD ++ mdProgLink ++ bodyP ++ mdCompLink ++ bodyC ++ mdMark ++ rest)
          mdProgLink = ((14 + bodyD.length : Nat) : Int) →
      pyFind (bodyP ++ mdCompLink ++ bodyC ++ mdMark ++ rest) mdProgLink = -1 →
      pyFindFrom (mdDesc ++ bodyD ++ mdProgLink ++ bodyP ++ mdCompLink ++ bodyC ++ mdMark ++ rest)
          mdMark ((0 : Int) + 1) = ((14 + bodyD.length : Nat) : Int) →
      pyFind (mdDesc ++ bodyD ++ mdProg ++ bodyP ++ mdCompLink ++ bodyC ++ mdMark ++ rest)
          mdProg = ((14 + bodyD.length : Nat) : Int) →
      pyFindFrom (mdDesc ++ bodyD ++ mdProg ++ bodyP ++ mdCompLink ++ bodyC ++ mdMark ++ rest)
          mdMark (((14 + bodyD.length : Nat) : Int) + 1)
          = ((25 + bodyD.length + bodyP.length : Nat) : Int) →
      pyFind (mdDesc ++ bodyD ++ mdProg ++ bodyP ++ mdCompLink ++ bodyC ++ mdMark ++ rest)
          mdCompLink = ((25 + bodyD.length + bodyP.length : Nat) : Int) →
      pyFind (bodyC ++ mdMark ++ rest) mdCompLink = -1 →
      pyFind (mdDesc ++ bodyD ++ mdProg ++ bodyP ++ mdComp ++ bodyC ++ mdMark ++ rest)
          mdComp = ((25 + bodyD.length + bodyP.length : Nat) : Int) →
      pyFindFrom (mdDesc ++ bodyD ++ mdProg ++ bodyP ++ mdComp ++ bodyC ++ mdMark ++ rest)
          mdMark (((25 + bodyD.length + bodyP.length : Nat) : Int) + 1)
          = ((38 + bodyD.length + bodyP.length + bodyC.length : Nat) : Int) →
      markdown_slice
          (mdDesc ++ bodyD ++ mdProgLink ++ bodyP ++ mdCompLink ++ bodyC ++ mdMark ++ rest)
        = some (bodyD ++ bodyP ++ bodyC)) ∧
    (∀ body rest : List Char,
      mdII (mdDesc ++ body ++ mdMark ++ rest) = ((14 + body.length : Nat) : Int) →
      mdJ (mdDesc ++ body ++ mdMark ++ rest) = -1 →
      mdK (mdDesc ++ body ++ mdMark ++ rest) = -1 →
      markdown_slice (mdDesc ++ body ++ mdMark ++ rest) = some body) := by
  have hmdD : mdDesc.length = 14 := by decide
  have hmdP : mdProg.length = 11 := by decide
  have hmdC : mdComp.length = 13 := by decide
  constructor
  · intro bodyD bodyP bodyC rest hocc1 hrest1 hii hj hjj hocc2 hrest2 hk hkk
    have hi : mdI (mdDesc ++ bodyD ++ mdProgLink ++ bodyP ++ mdCompLink ++ bodyC ++ mdMark ++
        rest) = 0 := by
      unfold mdI
      rw [show mdDesc ++ bodyD ++ mdProgLink ++ bodyP ++ mdCompLink ++ bodyC ++ mdMark ++ rest
          = mdDesc ++ (bodyD ++ (mdProgLink ++ (bodyP ++ (mdCompLink ++ (bodyC ++
            (mdMark ++ rest)))))) from by simp [List.append_assoc]]
      refine pyFind_zero ?_ (leadsWith_append_self _ _)
      intro h
      exact absurd (List.append_eq_nil.mp h).1 (by decide)
    have e1 : mdDesc ++ bodyD ++ mdProgLink ++ bodyP ++ mdCompLink ++ bodyC ++ mdMark ++ rest
        = (mdDesc ++ bodyD) ++ (mdProgLink ++ (bodyP ++ (mdCompLink ++ (bodyC ++
          (mdMark ++ rest))))) := by
      simp [List.append_assoc]
    have hfind1 : pyFind ((mdDesc ++ bodyD) ++ (mdProgLink ++ (bodyP ++ (mdCompLink ++
        (bodyC ++ (mdMark ++ rest)))))) mdProgLink = ((mdDesc ++ bodyD).length : Int) := by
      rw [← e1, hocc1]
      simp only [List.length_append, hmdD]
    have hrest1' : pyFind (bodyP ++ (mdCompLink ++ (bodyC ++ (mdMark ++ rest)))) mdProgLink
        = -1 := by
      have h := hrest1
      rw [show bodyP ++ mdCompLink ++ bodyC ++ mdMark ++ rest
          = bodyP ++ (mdCompLink ++ (bodyC ++ (mdMark ++ rest))) from by
        simp [List.append_assoc]] at h
      exact h
    have hshape1 : mdContent1 (mdDesc ++ bodyD ++ mdProgLink ++ bodyP ++ mdCompLink ++ bodyC ++
        mdMark ++ rest) = mdDesc ++ bodyD ++ mdProg ++ bodyP ++ mdCompLink ++ bodyC ++
        mdMark ++ rest := by
      unfold mdContent1
      rw [e1, pyReplace_single mdProgLink mdProg (mdDesc ++ bodyD)
        (bodyP ++ (mdCompLink ++ (bodyC ++ (mdMark ++ rest)))) (by decide) hfind1 hrest1']
      simp [List.append_assoc]
    have e2 : mdDesc ++ bodyD ++ mdProg ++ bodyP ++ mdCompLink ++ bodyC ++ mdMark ++ rest
        = (mdDesc ++ bodyD ++ mdProg ++ bodyP) ++ (mdCompLink ++ (bodyC ++ (mdMark ++ rest))) := by
      simp [List.append_assoc]
    have hfind2 : pyFind ((mdDesc ++ bodyD ++ mdProg ++ bodyP) ++ (mdCompLink ++ (bodyC ++
        (mdMark ++ rest)))) mdCompLink = ((mdDesc ++ bodyD ++ mdProg ++ bodyP).length : Int) := by
      rw [← e2, hocc2]
      simp only [List.length_append, hmdD, hmdP]
      omega
    have hrest2' : pyFind (bodyC ++ (mdMark ++ rest)) mdCompLink = -1 := by
      have h := hrest2
      rw [show bodyC ++ mdMark ++ rest = bodyC ++ (mdMark ++ rest) from by
        simp [List.append_assoc]] at h
      exact h
    have hshape2 : mdContent2 (mdDesc ++ bodyD ++ mdProgLink ++ bodyP ++ mdCompLink ++ bodyC ++
        mdMark ++ rest) = mdDesc ++ bodyD ++ mdProg ++ bodyP ++ mdComp ++ bodyC ++
        mdMark ++ rest := by
      unfold mdContent2
      rw [hshape1, e2, pyReplace_single mdCompLink mdComp (mdDesc ++ bodyD ++ mdProg ++ bodyP)
        (bodyC ++ (mdMark ++ rest)) (by decide) hfind2 hrest2']
      simp [List.append_assoc]
    have hiival : mdII (mdDesc ++ bodyD ++ mdProgLink ++ bodyP ++ mdCompLink ++ bodyC ++
        mdMark ++ rest) = ((14 + bodyD.length : Nat) : Int) := by
      unfold mdII
      rw [hi]
      exact hii
    have hjval : mdJ (mdDesc ++ bodyD ++ mdProgLink ++ bodyP ++ mdCompLink ++ bodyC ++
        mdMark ++ rest) = ((14 + bodyD.length : Nat) : Int) := by
      unfold mdJ
      rw [hshape1]
      exact hj
    have hjjval : mdJJ (mdDesc ++ bodyD ++ mdProgLink ++ bodyP ++ mdCompLink ++ bodyC ++
        mdMark ++ rest) = ((25 + bodyD.length + bodyP.length : Nat) : Int) := by
      unfold mdJJ
      rw [hshape1, hjval]
      exact hjj
    have hkval : mdK (mdDesc ++ bodyD ++ mdProgLink ++ bodyP ++ mdCompLink ++ bodyC ++
        mdMark ++ rest) = ((25 + bodyD.length + bodyP.length : Nat) : Int) := by
      unfold mdK
      rw [hshape2]
      exact hk
    have hkkval : mdKK (mdDesc ++ bodyD ++ mdProgLink ++ bodyP ++ mdCompLink ++ bodyC ++
        mdMark ++ rest)
        = ((38 + bodyD.length + bodyP.length + bodyC.length : Nat) : Int) := by
      unfold mdKK
      rw [hshape2, hkval]
      exact hkk
    have hs1 : pySlice (mdDesc ++ bodyD ++ mdProgLink ++ bodyP ++ mdCompLink ++ bodyC ++
        mdMark ++ rest) ((0 : Int) + 14) ((14 + bodyD.length : Nat) : Int) = bodyD := by
      rw [show mdDesc ++ bodyD ++ mdProgLink ++ bodyP ++ mdCompLink ++ bodyC ++ mdMark ++ rest
          = mdDesc ++ bodyD ++ (mdProgLink ++ (bodyP ++ (mdCompLink ++ (bodyC ++
            (mdMark ++ rest))))) from by simp [List.append_assoc]]
      refine pySlice_sandwich' mdDesc bodyD _ _ _ ?_ ?_
      · decide
      · rw [hmdD]
    have hs2 : pySlice (mdDesc ++ bodyD ++ mdProg ++ bodyP ++ mdCompLink ++ bodyC ++
        mdMark ++ rest) (((14 + bodyD.length : Nat) : Int) + 11)
        ((25 + bodyD.length + bodyP.length : Nat) : Int) = bodyP := by
      rw [show mdDesc ++ bodyD ++ mdProg ++ bodyP ++ mdCompLink ++ bodyC ++ mdMark ++ rest
          = (mdDesc ++ bodyD ++ mdProg) ++ bodyP ++ (mdCompLink ++ (bodyC ++
            (mdMark ++ rest))) from by simp [List.append_assoc]]
      refine pySlice_sandwich' (mdDesc ++ bodyD ++ mdProg) bodyP _ _ _ ?_ ?_
      · simp only [List.length_append, hmdD, hmdP]
        omega
      · simp only [List.length_append, hmdD, hmdP]
        omega
    have hs3 : pySlice (mdDesc ++ bodyD ++ mdProg ++ bodyP ++ mdComp ++ bodyC ++
        mdMark ++ rest) (((25 + bodyD.length + bodyP.length : Nat) : Int) + 13)
        ((38 + bodyD.length + bodyP.length + bodyC.length : Nat) : Int) = bodyC := by
      rw [show mdDesc ++ bodyD ++ mdProg ++ bodyP ++ mdComp ++ bodyC ++ mdMark ++ rest
          = (mdDesc ++ bodyD ++ mdProg ++ bodyP ++ mdComp) ++ bodyC ++ (mdMark ++ rest) from by
        simp [List.append_assoc]]
      refine pySlice_sandwich' (mdDesc ++ bodyD ++ mdProg ++ bodyP ++ mdComp) bodyC _ _ _ ?_ ?_
      · simp only [List.length_append, hmdD, hmdP, hmdC]
        omega
      · simp only [List.length_append, hmdD, hmdP, hmdC]
        omega
    rw [markdown_slice_eq, hi, if_neg (show ¬((0 : Int) = -1) from by decide), hkval,
      if_neg (show ¬(((25 + bodyD.length + bodyP.length : Nat) : Int) = -1) from by omega),
      hkkval, hshape2, hs3]
    unfold mdSliced2
    rw [hjval,
      if_neg (show ¬(((14 + bodyD.length : Nat) : Int) = -1) from by omega),
      hjjval, hshape1, hs2]
    unfold mdSliced1
    rw [hi, hiival, hs1]
  · intro body rest hnext hprog hcomp
    have hassoc : mdDesc ++ body ++ mdMark ++ rest = mdDesc ++ (body ++ (mdMark ++ rest)) := by
      simp [List.append_assoc]
    have hi : mdI (mdDesc ++ body ++ mdMark ++ rest) = 0 := by
      unfold mdI
      rw [hassoc]
      refine pyFind_zero ?_ (leadsWith_append_self _ _)
      intro h
      exact absurd (List.append_eq_nil.mp h).1 (by decide)
    have hine : ¬(mdI (mdDesc ++ body ++ mdMark ++ rest) = -1) := by
      rw [hi]; decide
    rw [markdown_slice_eq, if_neg hine, if_pos hcomp]
    unfold mdSliced2
    rw [if_pos hprog]
    unfold mdSliced1
    rw [hi, hnext]
    have h14 : (0 : Int) + 14 = ((mdDesc.length : Nat) : Int) := by rw [hmdD]; decide
    have h14b : ((14 + body.length : Nat) : Int)
        = ((mdDesc.length + body.length : Nat) : Int) := by
      rw [hmdD]
    have hsand : mdDesc ++ body ++ mdMark ++ rest = mdDesc ++ body ++ (mdMark ++ rest) := by
      simp [List.append_assoc]
    rw [h14, h14b, hsand, pySlice_sandwich]

/-- C6 witness: the first conjunct applied to a document with all three sections
(Progress and Completion in linked form, normalized by `replace`) whose closing
heading is the deeper-level `### Tail`; the second conjunct applied to the
counterexample-style document whose first `##` after the heading belongs to the
deeper heading `### Sub`. -/
theorem c6_witness :
    markdown_slice (mdDesc ++ "\nFoo\n".toList ++ mdProgLink ++ "\nBar\n".toList ++
        mdCompLink ++ "\nBaz\n".toList ++ mdMark ++ "# Tail\n".toList)
      = some ("\nFoo\n".toList ++ "\nBar\n".toList ++ "\nBaz\n".toList) ∧
    markdown_slice (mdDesc ++ "\nFoo\n".toList ++ mdMark ++ "# Sub\nBar\n## Next\n".toList)
      = some "\nFoo\n".toList := by
  constructor
  · exact c6_amended.1 "\nFoo\n".toList "\nBar\n".toList "\nBaz\n".toList "# Tail\n".toList
      (by decide) (by decide) (by decide) (by decide) (by decide) (by decide) (by decide)
      (by decide) (by decide)
  · exact c6_amended.2 "\nFoo\n".toList "# Sub\nBar\n## Next\n".toList (by decide) (by decide)
      (by decide)

/-! ## Claim C10 -/

/-- C10: when a requested section is the last one (the next-heading search
returns `-1`), the `-1` is used directly as the slice end index, so the
extracted section runs from just after the heading up to but excluding the
final character of the (replaced) document.  One conjunct per section. -/
theorem c10_last_section_drops_final_char (content : List Char) :
    ((0 ≤ mdI content ∧ mdII content = -1 ∧ mdJ content = -1 ∧ mdK content = -1) →
      markdown_slice content =
        some ((content.take (content.length - 1)).drop ((mdI content).toNat + 14))) ∧
    ((0 ≤ mdI content ∧ 0 ≤ mdJ content ∧ mdJJ content = -1 ∧ mdK content = -1) →
      markdown_slice content =
        some (mdSliced1 content ++
          ((mdContent1 content).take ((mdContent1 content).length - 1)).drop
            ((mdJ content).toNat + 11))) ∧
    ((0 ≤ mdI content ∧ 0 ≤ mdK content ∧ mdKK content = -1) →
      markdown_slice content =
        some (mdSliced2 content ++
          ((mdContent2 content).take ((mdContent2 content).length - 1)).drop
            ((mdK content).toNat + 13))) := by
  refine ⟨?_, ?_, ?_⟩
  · rintro ⟨hi, hii, hj, hk⟩
    have hine : ¬(mdI content = -1) := by omega
    rw [markdown_slice_eq, if_neg hine, if_pos hk]
    unfold mdSliced2
    rw [if_pos hj]
    unfold mdSliced1
    rw [hii, pySlice_neg_one _ _ (by omega)]
    have : (mdI content + 14).toNat = (mdI content).toNat + 14 := by omega
    rw [this]
  · rintro ⟨hi, hj, hjj, hk⟩
    have hine : ¬(mdI content = -1) := by omega
    have hjne : ¬(mdJ content = -1) := by omega
    rw [markdown_slice_eq, if_neg hine, if_pos hk]
    unfold mdSliced2
    rw [if_neg hjne, hjj, pySlice_neg_one _ _ (by omega)]
    have : (mdJ content + 11).toNat = (mdJ content).toNat + 11 := by omega
    rw [this]
  · rintro ⟨hi, hk, hkk⟩
    have hine : ¬(mdI content = -1) := by omega
    have hkne : ¬(mdK content = -1) := by omega
    rw [markdown_slice_eq, if_neg hine, if_neg hkne, hkk, pySlice_neg_one _ _ (by omega)]
    have : (mdK content + 13).toNat = (mdK content).toNat + 13 := by omega
    rw [this]

/-- C10 witness: three documents whose last section is respectively
Description, Progress and Completion; in each, the final character of the
document (`o`, `r`, `z`) is dropped from the extracted text. -/
theorem c10_witness :
    markdown_slice "## Description\nFoo".toList = some "\nFo".toList ∧
    markdown_slice "## Description\nFoo\n## Progress\nBar".toList = some "\nFoo\n\nBa".toList ∧
    markdown_slice "## Description\nFoo\n## Completion\nBaz".toList = some "\nFoo\n\nBa".toList := by
  refine ⟨?_, ?_, ?_⟩
  · exact ((c10_last_section_drops_final_char "## Description\nFoo".toList).1
      (by decide)).trans (by decide)
  · exact ((c10_last_section_drops_final_char
      "## Description\nFoo\n## Progress\nBar".toList).2.1 (by decide)).trans (by decide)
  · exact ((c10_last_section_drops_final_char
      "## Description\nFoo\n## Completion\nBaz".toList).2.2 (by decide)).trans (by decide)

/-! ## Claim C2 -/

theorem html_slice_eq (fuel : Nat) (content : List Char) :
    html_slice fuel content =
      if pyFind content hSliceHeading = -1 then some none
      else (stripLoop fuel (pySlice
        (pySlice content (pyFind content hSliceHeading + 43) (content.length : Int)) 0
        (pyFind (pySlice content (pyFind content hSliceHeading + 43) (content.length : Int))
          hTwoMark))).map some := rfl

/-- A well-formed Description section whose inner text begins with a tag. -/
def c2Content : List Char := hSliceHeading ++ "<b>x</b><h2>Next".toList

/-- C2 counterexample: the claim states the returned text has every tag span
removed and no residual `<` or `>`.  On `c2Content` the inner text `<b>x</b>`
is well formed but begins with a tag at index 0; the loop guard
`find('<') > 0` is false, so nothing is stripped and the result still contains
`<`. -/
theorem c2_counterexample :
    html_slice 9 c2Content = some (some "<b>x</b>".toList) ∧ '<' ∈ "<b>x</b>".toList := by
  constructor
  · decide
  · decide

/-- C2 (amended): for a well-formed Description section that is followed by
another heading and whose inner text starts with at least one non-tag
character, `html_slice` terminates and returns exactly the inner text with all
tag spans removed and no residual angle bracket.  (A tag at the very start of
the inner text is excluded: the loop guard `find('<') > 0` leaves it in
place.) -/
theorem c2_amended (pre : List Char) (chunks : List Chunk) (trail rest : List Char)
    (fuel : Nat)
    (hfuel : chunks.length ≤ fuel)
    (hwf : ∀ ch ∈ chunks, NoAngle ch.text ∧ NoAngle ch.tag)
    (htrail : NoAngle trail)
    (hhead : ∀ ch ∈ chunks.take 1, ch.text ≠ [])
    (hpre : pyFind (pre ++ hSliceHeading ++ renderChunks chunks trail ++ hTwoMark ++ rest)
      hSliceHeading = (pre.length : Int))
    (hnext : pyFind (renderChunks chunks trail ++ (hTwoMark ++ rest)) hTwoMark
      = ((renderChunks chunks trail).length : Int)) :
    html_slice fuel (pre ++ hSliceHeading ++ renderChunks chunks trail ++ hTwoMark ++ rest)
      = some (some (chunksText chunks trail)) ∧ NoAngle (chunksText chunks trail) := by
  constructor
  · rw [html_slice_eq, hpre, if_neg (show ¬((pre.length : Int) = -1) by omega)]
    have hC : pre ++ hSliceHeading ++ renderChunks chunks trail ++ hTwoMark ++ rest =
        (pre ++ hSliceHeading) ++ (renderChunks chunks trail ++ (hTwoMark ++ rest)) := by
      simp [List.append_assoc]
    have hlen : (pre ++ hSliceHeading).length = pre.length + 43 := by
      simp only [List.length_append]
      rw [show hSliceHeading.length = 43 from by decide]
    have htest : pySlice (pre ++ hSliceHeading ++ renderChunks chunks trail ++ hTwoMark ++ rest)
        ((pre.length : Int) + 43)
        (((pre ++ hSliceHeading ++ renderChunks chunks trail ++ hTwoMark ++ rest).length : Int))
        = renderChunks chunks trail ++ (hTwoMark ++ rest) := by
      rw [pySlice_to_len _ _ (by omega),
        show ((pre.length : Int) + 43).toNat = pre.length + 43 from by omega, hC,
        List.drop_left' hlen]
    rw [htest, hnext, pySlice_zero_coe, List.take_left,
      stripLoop_renderChunks fuel chunks trail hfuel hwf htrail hhead]
    rfl
  · exact chunksText_noAngle (fun ch hch => (hwf ch hch).1) htrail

/-- The chunks of the C2 witness section `Hello <b>world</b>!`. -/
def c2Chunks : List Chunk :=
  [⟨"Hello ".toList, "b".toList⟩,
   ⟨"world".toList, "/b".toList⟩]

/-- C2 witness: the amended theorem applied to the concrete section
`Hello <b>world</b>!` followed by the heading `<h2 class>`: the two tags are
stripped and `Hello world!` is returned. -/
theorem c2_witness :
    html_slice 2 ([] ++ hSliceHeading ++ renderChunks c2Chunks "!".toList ++ hTwoMark ++
        " class>".toList) = some (some "Hello world!".toList) ∧
      renderChunks c2Chunks "!".toList = "Hello <b>world</b>!".toList := by
  constructor
  · exact ((c2_amended [] c2Chunks "!".toList " class>".toList 2 (by decide) (by decide)
      (by decide) (by decide) (by decide) (by decide)).1).trans (by decide)
  · decide

/-! ## Claim C4 -/

/-- A batch for `export_long`: an unreadable first file and a readable second
file longer than the 500-character threshold. -/
def c4Files : List PyFile :=
  [⟨"a.txt".toList, none⟩,
   ⟨"b.txt".toList, some (List.replicate 501 'x')⟩]

/-- C4: the claim states a failing read only skips that file and the batch
continues, for `export_long` as well as conversion and selection.  This holds
for the conversion and selection loops, but `export_long` evaluates
`len(content)` on the `None` returned by `import_text`, raising an uncaught
`TypeError`: the whole batch aborts and the long readable file is never
exported. -/
theorem c4_export_long_aborts :
    export_long_run c4Files = ([], true) ∧
    conversion_process (fun _ => none) 1 "3".toList ⟨"a.txt".toList, none⟩
      = some none ∧
    pick_rand_run [⟨"a.txt".toList, none⟩]
      [⟨"a.txt".toList, none⟩] = [] ∧
    match_list_run "a.txt".toList [⟨"a.txt".toList, none⟩] = [] := by
  refine ⟨?_, ?_, ?_, ?_⟩ <;> decide

/-! ## Claim C5 -/

/-- A file whose markdown extraction yields an absent result (no Description
heading). -/
def c5File : PyFile := ⟨"a.txt".toList, some "no heading here".toList⟩

/-- C5 counterexample: the claim states files with absent results do not count
toward the "processed" total.  On a one-file batch with an absent result the
batch writes nothing, yet the processed counter — incremented by the
`apply_async` callback on every completed task — shows 1, not 0. -/
theorem c5_counterexample :
    conversion_outputs (fun _ => none) 1 "3".toList [c5File] = [] ∧
    conversion_processed_count (fun _ => none) 1 "3".toList [c5File] = 1 := by
  constructor
  · decide
  · decide

/-- C5 (amended): a present result is written under the original filename and an
absent result produces no output file; but the "processed" total counts every
normally completed task — including those with absent results — because the
callback fires on completion, not on write. -/
theorem c5_amended (convert : List Char → Option (List Char)) (fuel : Nat) (tool : List Char)
    (files : List PyFile)
    (hcomplete : ∀ f ∈ files, (conversion_process convert fuel tool f).isSome = true) :
    (∀ nm t, (nm, t) ∈ conversion_outputs convert fuel tool files ↔
      ∃ f ∈ files, f.name = nm ∧ conversion_process convert fuel tool f = some (some t)) ∧
    conversion_processed_count convert fuel tool files = files.length := by
  constructor
  · intro nm t
    unfold conversion_outputs
    rw [List.mem_filterMap]
    constructor
    · rintro ⟨f, hf, hmatch⟩
      cases hp : conversion_process convert fuel tool f with
      | none => rw [hp] at hmatch; exact absurd hmatch (by simp)
      | some o =>
        cases o with
        | none => rw [hp] at hmatch; exact absurd hmatch (by simp)
        | some t' =>
          rw [hp] at hmatch
          simp only [Option.some.injEq, Prod.mk.injEq] at hmatch
          exact ⟨f, hf, hmatch.1, by rw [hp, hmatch.2]⟩
    · rintro ⟨f, hf, hnm, hp⟩
      refine ⟨f, hf, ?_⟩
      rw [hp, hnm]
  · unfold conversion_processed_count
    rw [List.filter_eq_self.mpr hcomplete]

/-- C5 witness: a one-file batch whose task completes; the processed count
equals the number of files. -/
theorem c5_witness :
    conversion_processed_count (fun _ => none) 1 "3".toList
      [⟨"b.txt".toList, some "x".toList⟩] = 1 :=
  (c5_amended (fun _ => none) 1 "3".toList
    [⟨"b.txt".toList, some "x".toList⟩] (by decide)).2

/-! ## Claim C8 -/

/-- C8: with the documented contract of `random.sample` — `Except.ok` with `n`
distinct elements of the listing when `n` does not exceed the population,
`ValueError` otherwise — `pick_rand` in random mode aborts before processing
any file when `n` is too large, and otherwise iterates against a selection of
exactly `n` distinct files frozen before the loop. -/
theorem c8_random_sample (sample : List PyFile → Nat → Except Unit (List PyFile))
    (listing : List PyFile) (n : Nat)
    (hok : n ≤ listing.length → ∃ p, sample listing n = Except.ok p ∧ p.length = n ∧
      p.Nodup ∧ ∀ x ∈ p, x ∈ listing)
    (herr : listing.length < n → sample listing n = Except.error ()) :
    (listing.length < n → pick_rand_r sample listing n = Except.error ()) ∧
    (n ≤ listing.length → ∃ p, p.length = n ∧ p.Nodup ∧ (∀ x ∈ p, x ∈ listing) ∧
      pick_rand_r sample listing n = Except.ok (pick_rand_run p listing)) := by
  constructor
  · intro h
    unfold pick_rand_r
    rw [herr h]
  · intro h
    obtain ⟨p, hs, hl, hnd, hsub⟩ := hok h
    refine ⟨p, hl, hnd, hsub, ?_⟩
    unfold pick_rand_r
    rw [hs]

/-- A two-file listing for the C8 witness. -/
def c8Listing : List PyFile :=
  [⟨"a.txt".toList, some "x".toList⟩,
   ⟨"b.txt".toList, some "y".toList⟩]

/-- A deterministic sampler satisfying the `random.sample` contract on the
witness listing. -/
def c8Sample (l : List PyFile) (k : Nat) : Except Unit (List PyFile) :=
  if k ≤ l.length then Except.ok (l.take k) else Except.error ()

/-- C8 witness: sampling one of two files succeeds with a frozen one-element
selection. -/
theorem c8_witness :
    ∃ p, p.length = 1 ∧ p.Nodup ∧ (∀ x ∈ p, x ∈ c8Listing) ∧
      pick_rand_r c8Sample c8Listing 1 = Except.ok (pick_rand_run p c8Listing) := by
  exact (c8_random_sample c8Sample c8Listing 1
    (fun _ => ⟨c8Listing.take 1, rfl, by decide, by decide, by decide⟩)
    (fun h => absurd h (by decide))).2 (by decide)

/-! ## Claim C7 -/

/-- A list file whose single entry is `foobar.txt`. -/
def c7ListText : List Char := "foobar.txt".toList

/-- C7 counterexample: the claim states a file is selected iff its filename is
an exact member of the list's parsed entries, not a looser substring match.
The list text `foobar.txt` has no entry equal to `bar.txt`, yet `bar.txt` is
selected and copied, because the code tests `file.name in quest_list` — Python
substring containment on the raw text. -/
theorem c7_counterexample :
    match_list_run c7ListText [⟨"bar.txt".toList, some "X".toList⟩]
      = [("bar.txt".toList, "X".toList)] ∧ "bar.txt".toList ≠ c7ListText := by
  constructor
  · decide
  · decide

/-- C7 (amended): in name-list mode a file is selected and copied iff its
filename occurs anywhere in the list file's text as a substring (and it is not
the reserved artifact name and its read succeeds). -/
theorem c7_amended (questList : List Char) (files : List PyFile) (nm c : List Char) :
    (nm, c) ∈ match_list_run questList files ↔
      ∃ f ∈ files, f.name = nm ∧ f.content = some c ∧ nm ≠ dsName ∧
        pyInStr nm questList = true := by
  induction files with
  | nil => simp [match_list_run]
  | cons f rest ih =>
    show (nm, c) ∈ (if f.name = dsName then match_list_run questList rest
      else if pyInStr f.name questList then
        (match f.content with
          | some c' => (f.name, c') :: match_list_run questList rest
          | none => match_list_run questList rest)
      else match_list_run questList rest) ↔ _
    by_cases hds : f.name = dsName
    · rw [if_pos hds, ih]
      constructor
      · rintro ⟨g, hg, hprops⟩
        exact ⟨g, List.mem_cons_of_mem f hg, hprops⟩
      · rintro ⟨g, hg, hgname, hgc, hnm, hin⟩
        rcases List.mem_cons.mp hg with he | hm
        · exact absurd ((hgname.symm.trans (he ▸ hds))) hnm
        · exact ⟨g, hm, hgname, hgc, hnm, hin⟩
    · rw [if_neg hds]
      by_cases hin : pyInStr f.name questList = true
      · rw [if_pos hin]
        cases hc : f.content with
        | none =>
          rw [ih]
          constructor
          · rintro ⟨g, hg, hprops⟩
            exact ⟨g, List.mem_cons_of_mem f hg, hprops⟩
          · rintro ⟨g, hg, hgname, hgc, hnm, hin'⟩
            rcases List.mem_cons.mp hg with he | hm
            · subst he
              rw [hc] at hgc
              exact absurd hgc (by simp)
            · exact ⟨g, hm, hgname, hgc, hnm, hin'⟩
        | some c' =>
          rw [List.mem_cons, ih]
          constructor
          · rintro (heq | ⟨g, hg, hprops⟩)
            · rw [Prod.mk.injEq] at heq
              obtain ⟨h1, h2⟩ := heq
              exact ⟨f, List.mem_cons_self f rest, h1.symm, by rw [hc, h2],
                h1 ▸ hds, h1 ▸ hin⟩
            · exact ⟨g, List.mem_cons_of_mem f hg, hprops⟩
          · rintro ⟨g, hg, hgname, hgc, hnm, hin'⟩
            rcases List.mem_cons.mp hg with he | hm
            · subst he
              left
              rw [hc] at hgc
              rw [Prod.mk.injEq]
              exact ⟨hgname.symm, (Option.some.injEq _ _ ▸ hgc).symm⟩
            · right
              exact ⟨g, hm, hgname, hgc, hnm, hin'⟩
      · rw [if_neg hin, ih]
        constructor
        · rintro ⟨g, hg, hprops⟩
          exact ⟨g, List.mem_cons_of_mem f hg, hprops⟩
        · rintro ⟨g, hg, hgname, hgc, hnm, hin'⟩
          rcases List.mem_cons.mp hg with he | hm
          · subst he
            exact absurd (hgname ▸ hin') hin
          · exact ⟨g, hm, hgname, hgc, hnm, hin'⟩

/-! ## Claim C9 -/

/-- C9: `.DS_Store` is never written, under every operation mode: the
conversion batch, the length filter, random/stride picking, and list matching
all skip the reserved name before reading or writing. -/
theorem c9_ds_store_never_written :
    (∀ (convert : List Char → Option (List Char)) (fuel : Nat) (tool : List Char)
        (files : List PyFile) (t : List Char),
      (dsName, t) ∉ conversion_outputs convert fuel tool files) ∧
    (∀ (files : List PyFile) (t : List Char), (dsName, t) ∉ (export_long_run files).1) ∧
    (∀ (picked listing : List PyFile) (t : List Char),
      (dsName, t) ∉ pick_rand_run picked listing) ∧
    (∀ (questList : List Char) (files : List PyFile) (t : List Char),
      (dsName, t) ∉ match_list_run questList files) := by
  refine ⟨?_, ?_, ?_, ?_⟩
  · intro convert fuel tool files t hmem
    rw [conversion_outputs, List.mem_filterMap] at hmem
    obtain ⟨f, hf, hmatch⟩ := hmem
    by_cases hds : f.name = dsName
    · rw [show conversion_process convert fuel tool f = some none from by
        rw [conversion_process, if_pos hds]] at hmatch
      exact absurd hmatch (by simp)
    · cases hp : conversion_process convert fuel tool f with
      | none => rw [hp] at hmatch; exact absurd hmatch (by simp)
      | some o =>
        cases o with
        | none => rw [hp] at hmatch; exact absurd hmatch (by simp)
        | some t' =>
          rw [hp] at hmatch
          simp only [Option.some.injEq, Prod.mk.injEq] at hmatch
          exact hds hmatch.1
  · intro files t
    induction files with
    | nil => simp [export_long_run]
    | cons f rest ih =>
      show (dsName, t) ∉ (if f.name = dsName then export_long_run rest
        else match f.content with
          | none => ([], true)
          | some c =>
            if 500 < c.length then
              ((f.name, c) :: (export_long_run rest).1, (export_long_run rest).2)
            else export_long_run rest).1
      by_cases hds : f.name = dsName
      · rw [if_pos hds]; exact ih
      · rw [if_neg hds]
        cases f.content with
        | none => simp
        | some c =>
          show (dsName, t) ∉ (if 500 < c.length then
            ((f.name, c) :: (export_long_run rest).1, (export_long_run rest).2)
            else export_long_run rest).1
          by_cases hlen : 500 < c.length
          · rw [if_pos hlen]
            intro hmem
            rcases List.mem_cons.mp hmem with he | hm
            · rw [Prod.mk.injEq] at he
              exact hds he.1.symm
            · exact ih hm
          · rw [if_neg hlen]; exact ih
  · intro picked listing t
    induction listing with
    | nil => simp [pick_rand_run]
    | cons f rest ih =>
      show (dsName, t) ∉ (if f.name = dsName then pick_rand_run picked rest
        else if f ∈ picked then
          (match f.content with
            | some c => (f.name, c) :: pick_rand_run picked rest
            | none => pick_rand_run picked rest)
        else pick_rand_run picked rest)
      by_cases hds : f.name = dsName
      · rw [if_pos hds]; exact ih
      · rw [if_neg hds]
        by_cases hpick : f ∈ picked
        · rw [if_pos hpick]
          cases f.content with
          | none => exact ih
          | some c =>
            intro hmem
            rcases List.mem_cons.mp hmem with he | hm
            · rw [Prod.mk.injEq] at he
              exact hds he.1.symm
            · exact ih hm
        · rw [if_neg hpick]; exact ih
  · intro questList files t
    induction files with
    | nil => simp [match_list_run]
    | cons f rest ih =>
      show (dsName, t) ∉ (if f.name = dsName then match_list_run questList rest
        else if pyInStr f.name questList then
          (match f.content with
            | some c => (f.name, c) :: match_list_run questList rest
            | none => match_list_run questList rest)
        else match_list_run questList rest)
      by_cases hds : f.name = dsName
      · rw [if_pos hds]; exact ih
      · rw [if_neg hds]
        by_cases hin : pyInStr f.name questList = true
        · rw [if_pos hin]
          cases f.content with
          | none => exact ih
          | some c =>
            intro hmem
            rcases List.mem_cons.mp hmem with he | hm
            · rw [Prod.mk.injEq] at he
              exact hds he.1.symm
            · exact ih hm
        · rw [if_neg hin]; exact ih

end TwoRunner
